import Mathlib

/-!
Shallow embedding of `src/gp/node.py`: the expression-tree node variants,
their evaluation semantics, and the randomized tree generator.

Python numbers are modelled as a tagged sum of integers and floats, with
float values abstracted as rationals (the claims under study concern the
int/float tag and exact arithmetic identities, not rounding).
-/

/-- A Python number: either an `int` or a `float` (abstracted as a rational). -/
inductive PyNum where
  | int : Int → PyNum
  | float : Rat → PyNum
deriving DecidableEq, Repr

/-- Numeric value of a Python number. -/
def PyNum.toRat : PyNum → Rat
  | .int n => (n : Rat)
  | .float q => q

/-- Whether a Python number carries the `float` tag. -/
def PyNum.isFloat : PyNum → Bool
  | .int _ => false
  | .float _ => true

/-- Python `+`: int + int is int, any float operand makes the result float. -/
def pyAdd : PyNum → PyNum → PyNum
  | .int a, .int b => .int (a + b)
  | a, b => .float (a.toRat + b.toRat)

/-- Python `*`: int * int is int, any float operand makes the result float. -/
def pyMul : PyNum → PyNum → PyNum
  | .int a, .int b => .int (a * b)
  | a, b => .float (a.toRat * b.toRat)

/-- Python binary `-`: int - int is int, any float operand makes the result float. -/
def pySub : PyNum → PyNum → PyNum
  | .int a, .int b => .int (a - b)
  | a, b => .float (a.toRat - b.toRat)

/-- Python unary `-`: preserves the numeric type. -/
def pyNeg : PyNum → PyNum
  | .int a => .int (-a)
  | .float q => .float (-q)

/-- Python `sum(xs)`: left fold of `+` starting from the int `0`. -/
def pySum (l : List PyNum) : PyNum := l.foldl pyAdd (.int 0)

/-- Python `functools.reduce(operator.mul, xs, 1)`: left fold of `*` from the int `1`. -/
def pyProd (l : List PyNum) : PyNum := l.foldl pyMul (.int 1)

/-- The four operator node classes of `node.py` (`AdditionNode`,
`MultiplicationNode`, `DivisionNode`, `SubtractionNode`), all with
`ARITY = float('inf')`. -/
inductive OpKind where
  | add
  | mul
  | div
  | sub
deriving DecidableEq, Repr

/-- An expression-tree node: `TerminalNode` (a constant), `ParamNode` (a
context accessor; the index is an `Int` because Python list indexing accepts
negative indices), or one of the four operator nodes with its `_children`
list.  The Python constructors always store a list in `_children`, so the
model uses `List Node` (the unreachable `_children is None` branch of
`DivisionNode.call` is discussed at `eval`). -/
inductive Node where
  | term : PyNum → Node
  | param : Int → Node
  | op : OpKind → List Node → Node
deriving Repr

/-- Errors that an evaluation (`BaseNode.__call__`) can raise. -/
inductive EvalErr where
  | indexOutOfRange
  | indexError
  | zeroDivisionError
deriving DecidableEq, Repr

/-- Python list indexing `l[i]`: a negative index counts from the end;
out-of-range (in either direction) is `none` (IndexError). -/
def pyGet {α : Type} (l : List α) (i : Int) : Option α :=
  let j : Int := if i < 0 then (l.length : Int) + i else i
  if 0 ≤ j ∧ j < (l.length : Int) then l.get? j.toNat else none

mutual

/-- Evaluation, `BaseNode.__call__` and `Node.call` combined: evaluate the children left to
right against the shared context (the first exception propagates), then
combine the results as the node's `call` does.

The `DivisionNode.call` guard is `not context or self._children is None`;
through `__call__` the `_children is None` disjunct is unreachable (iterating
`None` children raises first), so the guard reduces to the context-emptiness
test.  With a non-empty context and an empty children list the `else` branch
reads `children_values[0]`, raising IndexError. -/
def eval (ctx : List PyNum) : Node → Except EvalErr PyNum
  | .term v => .ok v
  | .param i =>
      match pyGet ctx i with
      | some v => .ok v
      | none => .error .indexOutOfRange
  | .op k cs => do
      let vs ← evalList ctx cs
      match k with
      | .add => pure (pySum vs)
      | .mul => pure (pyProd vs)
      | .div =>
          if ctx.isEmpty then
            pure (.int 1)
          else
            match vs with
            | [] => .error .indexError
            | [v] =>
                if v.toRat = 0 then .error .zeroDivisionError
                else pure (.float (1 / v.toRat))
            | v :: rest =>
                let den := pyProd rest
                if den.toRat = 0 then .error .zeroDivisionError
                else pure (.float (v.toRat / den.toRat))
      | .sub =>
          match vs with
          | [] => .error .indexError
          | [v] => pure (pyNeg v)
          | v :: rest => pure (rest.foldl pySub v)

/-- The list comprehension `[node(context) for node in self._children]`. -/
def evalList (ctx : List PyNum) : List Node → Except EvalErr (List PyNum)
  | [] => .ok []
  | n :: ns => do
      let v ← eval ctx n
      let vs ← evalList ctx ns
      pure (v :: vs)

end

deriving instance DecidableEq for Except

example : eval [] (.term (.int 5)) = .ok (.int 5) := rfl
example : eval [.int 2, .int 3] (.op .add [.param 0, .param 1]) = .ok (.int 5) := rfl
example : eval [.int 5] (.op .mul [.param 0, .term (.int 5)]) = .ok (.int 25) := rfl
example : eval [.int 5] (.op .div [.param 0]) = .ok (.float (1/5)) := rfl
example : eval [.int 5, .int 5, .int 10] (.op .div [.param 0, .param 1]) = .ok (.float 1) := by
  norm_num [eval, evalList, pyGet, pyProd, pyMul, PyNum.toRat, Except.instMonad, Except.bind,
    Except.pure, List.isEmpty, Int.toNat]
example : eval [.int 5, .int 5, .int 10] (.op .div [.param 0, .param 1, .param 2]) =
    .ok (.float (1/10)) := by
  norm_num [eval, evalList, pyGet, pyProd, pyMul, PyNum.toRat, Except.instMonad, Except.bind,
    Except.pure, List.isEmpty, Int.toNat]
example : eval [] (.op .sub [.term (.int (-3))]) = .ok (.int 3) := rfl
example : eval [] (.op .sub [.term (.int 4), .term (.int 3)]) = .ok (.int 1) := rfl
example : eval [.int 1] (.op .div [.term (.int 5)]) = .ok (.float (1/5)) := rfl
example : eval [] (.op .div [.term (.int 5)]) = .ok (.int 1) := rfl
example : eval [.int 1] (.op .div []) = .error .indexError := rfl
example : eval [.int 7] (.param 2) = .error .indexOutOfRange := rfl
example : eval [.int 7, .int 9] (.param (-1)) = .ok (.int 9) := rfl

/-- The two generation strategies of the `Method` enum. -/
inductive Method where
  | GROW
  | FULL
deriving DecidableEq, Repr

/-- Errors that `_generate_random_tree` can raise: `IndexError` from
`random.choice` on an empty sequence, `ValueError` from `random.randint`
on an empty range, and `ZeroDivisionError` from the `terms_to_funcs`
computation when all three catalogs are empty. -/
inductive GenErr where
  | indexError
  | valueError
  | zeroDivisionError
deriving DecidableEq, Repr

/-- The outcomes of the process-wide random generator, made explicit: a
stream of `random.random()` draws (rationals, intended in `[0,1)`) and a
stream of discrete draws feeding `random.choice` / `random.randint`.
Exhausted streams repeat `0`, which only extends each finite prefix to a
total run and loses no outcome. -/
structure Oracle where
  rats : List Rat
  nats : List Nat
deriving Repr

/-- Pop the next `random.random()` draw. -/
def Oracle.drawRat : Oracle → Rat × Oracle
  | ⟨[], ns⟩ => (0, ⟨[], ns⟩)
  | ⟨r :: rs, ns⟩ => (r, ⟨rs, ns⟩)

/-- Pop the next discrete draw. -/
def Oracle.drawNat : Oracle → Nat × Oracle
  | ⟨rs, []⟩ => (0, ⟨rs, []⟩)
  | ⟨rs, n :: ns⟩ => (n, ⟨rs, ns⟩)

/-- Python `random.choice(seq)`: uniform element of a non-empty sequence;
IndexError on an empty one. -/
def pyChoice {α : Type} (l : List α) (o : Oracle) : Except GenErr (α × Oracle) :=
  match l with
  | [] => .error .indexError
  | x :: xs =>
      let p := o.drawNat
      .ok ((x :: xs).get ⟨p.1 % (xs.length + 1), Nat.mod_lt _ (Nat.succ_pos _)⟩, p.2)

/-- Python `random.randint(lo, hi)`: uniform integer in `[lo, hi]`; ValueError when
the range is empty (`hi < lo`). -/
def pyRandint (lo hi : Nat) (o : Oracle) : Except GenErr (Nat × Oracle) :=
  if hi < lo then .error .valueError
  else
    let p := o.drawNat
    .ok (lo + p.1 % (hi - lo + 1), p.2)

/-- A function set supplied to the generator is a list of operator classes
(the members of `FUNCTION_SET`), each carrying `ARITY = float('inf')`, the
variable-arity sentinel.  `build` is the constructor call `func(args)`. -/
def OpKind.build (k : OpKind) (args : List Node) : Node := Node.op k args

/-- The default `choose_param` bias of `_generate_random_tree` (0.8); the
recursive calls never override it. -/
def choose_param : Rat := 4/5

/-- The leaf branch of `_generate_random_tree`: draw `random.random()`,
pick from `param_set` when the draw is `<= choose_param`, else from
`term_set`. -/
def genLeaf (paramSet termSet : List Node) (o : Oracle) : Except GenErr (Node × Oracle) :=
  let p := o.drawRat
  if p.1 ≤ choose_param then pyChoice paramSet p.2 else pyChoice termSet p.2

mutual

/-- The private `_generate_random_tree`: computes `terms_to_funcs`
(ZeroDivisionError when every catalog is empty), produces a leaf when
`max_depth == 0` or — GROW only — when a fresh `random.random()` draw is
below the ratio (FULL never draws here, mirroring Python short-circuit
evaluation), and otherwise expands one operator level at `max_depth - 1`. -/
def genTree (numParams : Nat) (funcSet : List OpKind) (paramSet termSet : List Node) :
    Nat → Method → Oracle → Except GenErr (Node × Oracle)
  | maxDepth, method, o =>
    if termSet.length + paramSet.length + funcSet.length = 0 then
      .error .zeroDivisionError
    else
      match maxDepth with
      | 0 => genLeaf paramSet termSet o
      | d + 1 =>
        match method with
        | .FULL => genExpand numParams funcSet paramSet termSet d .FULL o
        | .GROW =>
            let p := o.drawRat
            if p.1 < ((termSet.length + paramSet.length : Nat) : Rat) /
                ((termSet.length + paramSet.length + funcSet.length : Nat) : Rat) then
              genLeaf paramSet termSet p.2
            else genExpand numParams funcSet paramSet termSet d .GROW p.2
termination_by maxDepth _ _ => (maxDepth, 0, 0)

/-- The operator branch of `_generate_random_tree`: pick an operator class
uniformly from `func_set`, sample its argument count with
`random.randint(1, num_params)` (every class in `FUNCTION_SET` carries the
infinite-arity sentinel, so `randint` is always consulted), build the
children, and wrap them with `func(args)`. -/
def genExpand (numParams : Nat) (funcSet : List OpKind) (paramSet termSet : List Node)
    (d : Nat) (method : Method) (o : Oracle) : Except GenErr (Node × Oracle) :=
  match pyChoice funcSet o with
  | .error e => .error e
  | .ok fo =>
      match pyRandint 1 numParams fo.2 with
      | .error e => .error e
      | .ok na =>
          match genArgs numParams funcSet paramSet termSet d method na.1 na.2 with
          | .error e => .error e
          | .ok ar => .ok (fo.1.build ar.1, ar.2)
termination_by (d, 1, 0)

/-- The list comprehension building `num_args` children, each by a recursive
call at depth `max_depth - 1`, consuming randomness left to right. -/
def genArgs (numParams : Nat) (funcSet : List OpKind) (paramSet termSet : List Node) :
    Nat → Method → Nat → Oracle → Except GenErr (List Node × Oracle)
  | _, _, 0, o => .ok ([], o)
  | d, method, n + 1, o =>
      match genTree numParams funcSet paramSet termSet d method o with
      | .error e => .error e
      | .ok hd =>
          match genArgs numParams funcSet paramSet termSet d method n hd.2 with
          | .error e => .error e
          | .ok tl => .ok (hd.1 :: tl.1, tl.2)
termination_by d _ n _ => (d, 0, n + 1)

end

/-- The public `generate_random_tree`: builds the parameter catalog
`[ParamNode(i) for i in range(num_params)]` and delegates.  The
`num_params < 0` InvalidArgument check is made unrepresentable by using
`Nat` for `num_params`. -/
def generate_random_tree (numParams : Nat) (funcSet : List OpKind) (termSet : List Node)
    (maxDepth : Nat) (method : Method) (o : Oracle) : Except GenErr (Node × Oracle) :=
  genTree numParams funcSet ((List.range numParams).map (fun i => Node.param (i : Int)))
    termSet maxDepth method o

/-- A `TerminalNode` (the node kind populating a terminal set). -/
def Node.isTerm : Node → Bool
  | .term _ => true
  | _ => false

/-- A leaf: a node with no children (`TerminalNode` and `ParamNode` are
constructed with an empty `_children` list). -/
def Node.isLeaf : Node → Bool
  | .term _ => true
  | .param _ => true
  | .op _ _ => false

mutual

/-- A tree built only from `TerminalNode` and the four operator nodes
(no `ParamNode` anywhere). -/
def constOnly : Node → Bool
  | .term _ => true
  | .param _ => false
  | .op _ cs => constOnlyList cs

/-- Conjunction of `constOnly` over a children list. -/
def constOnlyList : List Node → Bool
  | [] => true
  | c :: cs => constOnly c && constOnlyList cs

end

mutual

/-- Every leaf of the tree sits at depth exactly `d` below the root (a leaf
is a node with an empty children list). -/
def leavesAtExactly : Node → Nat → Bool
  | .term _, d => d == 0
  | .param _, d => d == 0
  | .op _ cs, 0 => cs.isEmpty
  | .op _ cs, d + 1 => !cs.isEmpty && leavesAtExactlyList cs d

/-- Conjunction of `leavesAtExactly · d` over a children list. -/
def leavesAtExactlyList : List Node → Nat → Bool
  | [], _ => true
  | c :: cs, d => leavesAtExactly c d && leavesAtExactlyList cs d

end

mutual

/-- No leaf of the tree sits deeper than `d` below the root. -/
def depthLE : Node → Nat → Bool
  | .term _, _ => true
  | .param _, _ => true
  | .op _ cs, 0 => cs.isEmpty
  | .op _ cs, d + 1 => depthLEList cs d

/-- Conjunction of `depthLE · d` over a children list. -/
def depthLEList : List Node → Nat → Bool
  | [], _ => true
  | c :: cs, d => depthLE c d && depthLEList cs d

end

theorem isLeaf_leavesAtExactly_zero {n : Node} (h : n.isLeaf = true) :
    leavesAtExactly n 0 = true := by
  cases n <;> simp_all [Node.isLeaf, leavesAtExactly]

theorem isLeaf_depthLE {n : Node} (h : n.isLeaf = true) (d : Nat) : depthLE n d = true := by
  cases n <;> simp_all [Node.isLeaf] <;> cases d <;> simp [depthLE]

theorem leavesAtExactlyList_of_forall {cs : List Node} {d : Nat}
    (h : ∀ c ∈ cs, leavesAtExactly c d = true) : leavesAtExactlyList cs d = true := by
  induction cs with
  | nil => rfl
  | cons c cs ih =>
      simp only [leavesAtExactlyList, Bool.and_eq_true]
      exact ⟨h c (List.mem_cons_self c cs), ih fun x hx => h x (List.mem_cons_of_mem c hx)⟩

theorem depthLEList_of_forall {cs : List Node} {d : Nat}
    (h : ∀ c ∈ cs, depthLE c d = true) : depthLEList cs d = true := by
  induction cs with
  | nil => rfl
  | cons c cs ih =>
      simp only [depthLEList, Bool.and_eq_true]
      exact ⟨h c (List.mem_cons_self c cs), ih fun x hx => h x (List.mem_cons_of_mem c hx)⟩

theorem pyChoice_mem {α : Type} {l : List α} {o : Oracle} {p : α × Oracle}
    (h : pyChoice l o = .ok p) : p.1 ∈ l := by
  match l with
  | [] => simp [pyChoice] at h
  | x :: xs =>
      simp only [pyChoice, Except.ok.injEq] at h
      subst h
      exact List.get_mem _ _ _

theorem pyRandint_lo_le {lo hi : Nat} {o : Oracle} {p : Nat × Oracle}
    (h : pyRandint lo hi o = .ok p) : lo ≤ p.1 := by
  by_cases hlt : hi < lo
  · simp [pyRandint, hlt] at h
  · simp only [pyRandint, if_neg hlt, Except.ok.injEq] at h
    subst h
    exact Nat.le_add_right _ _

theorem genLeaf_mem {paramSet termSet : List Node} {o : Oracle} {p : Node × Oracle}
    (h : genLeaf paramSet termSet o = .ok p) : p.1 ∈ paramSet ∨ p.1 ∈ termSet := by
  by_cases hr : (o.drawRat).1 ≤ choose_param
  · exact Or.inl (pyChoice_mem (by simpa [genLeaf, hr] using h))
  · exact Or.inr (pyChoice_mem (by simpa [genLeaf, hr] using h))

theorem genArgs_sound {numParams : Nat} {funcSet : List OpKind} {paramSet termSet : List Node}
    {d : Nat} {method : Method} (P : Node → Prop)
    (hP : ∀ o p, genTree numParams funcSet paramSet termSet d method o = .ok p → P p.1) :
    ∀ (n : Nat) (o : Oracle) (ar : List Node × Oracle),
      genArgs numParams funcSet paramSet termSet d method n o = .ok ar →
      ar.1.length = n ∧ ∀ a ∈ ar.1, P a := by
  intro n
  induction n with
  | zero =>
      intro o ar h
      simp only [genArgs, Except.ok.injEq] at h
      subst h
      simp
  | succ n ih =>
      intro o ar h
      simp only [genArgs] at h
      split at h
      next e heq => exact absurd h (by simp)
      next hd hg =>
        split at h
        next e heq => exact absurd h (by simp)
        next tl ha =>
          simp only [Except.ok.injEq] at h
          obtain ⟨hlen, hall⟩ := ih hd.2 tl ha
          subst h
          refine ⟨by simp [hlen], ?_⟩
          intro a hmem
          rcases List.mem_cons.mp hmem with rfl | hmem
          · exact hP o hd hg
          · exact hall a hmem

theorem genExpand_sound {numParams : Nat} {funcSet : List OpKind} {paramSet termSet : List Node}
    {d : Nat} {method : Method} (P : Node → Prop)
    (hP : ∀ o p, genTree numParams funcSet paramSet termSet d method o = .ok p → P p.1)
    {o : Oracle} {p : Node × Oracle}
    (h : genExpand numParams funcSet paramSet termSet d method o = .ok p) :
    ∃ k args, p.1 = Node.op k args ∧ args ≠ [] ∧ ∀ a ∈ args, P a := by
  simp only [genExpand] at h
  split at h
  next e heq => exact absurd h (by simp)
  next fo hc =>
    split at h
    next e heq => exact absurd h (by simp)
    next na hr =>
      split at h
      next e heq => exact absurd h (by simp)
      next ar ha =>
        simp only [Except.ok.injEq] at h
        obtain ⟨hlen, hall⟩ := genArgs_sound P hP na.1 na.2 ar ha
        refine ⟨fo.1, ar.1, ?_, ?_, hall⟩
        · rw [← h]; rfl
        · intro hnil
          have hle := pyRandint_lo_le hr
          rw [hnil] at hlen
          simp at hlen
          omega

theorem genTree_FULL_leaves {numParams : Nat} {funcSet : List OpKind}
    {paramSet termSet : List Node}
    (hps : ∀ n ∈ paramSet, n.isLeaf = true) (hts : ∀ n ∈ termSet, n.isLeaf = true) :
    ∀ (d : Nat) (o : Oracle) (p : Node × Oracle),
      genTree numParams funcSet paramSet termSet d .FULL o = .ok p →
      leavesAtExactly p.1 d = true := by
  intro d
  induction d with
  | zero =>
      intro o p h
      simp only [genTree] at h
      split at h
      · exact absurd h (by simp)
      · rcases genLeaf_mem h with hm | hm
        · exact isLeaf_leavesAtExactly_zero (hps _ hm)
        · exact isLeaf_leavesAtExactly_zero (hts _ hm)
  | succ d ih =>
      intro o p h
      simp only [genTree] at h
      split at h
      · exact absurd h (by simp)
      · obtain ⟨k, args, hp1, hne, hall⟩ :=
          genExpand_sound (fun a => leavesAtExactly a d = true) (fun o' p' h' => ih o' p' h') h
        rw [hp1]
        simp only [leavesAtExactly, Bool.and_eq_true, Bool.not_eq_true']
        exact ⟨by simp [List.isEmpty_iff, hne], leavesAtExactlyList_of_forall hall⟩

theorem genTree_depthLE {numParams : Nat} {funcSet : List OpKind}
    {paramSet termSet : List Node}
    (hps : ∀ n ∈ paramSet, n.isLeaf = true) (hts : ∀ n ∈ termSet, n.isLeaf = true) :
    ∀ (d : Nat) (method : Method) (o : Oracle) (p : Node × Oracle),
      genTree numParams funcSet paramSet termSet d method o = .ok p →
      depthLE p.1 d = true := by
  intro d
  induction d with
  | zero =>
      intro method o p h
      simp only [genTree] at h
      split at h
      · exact absurd h (by simp)
      · rcases genLeaf_mem h with hm | hm
        · exact isLeaf_depthLE (hps _ hm) 0
        · exact isLeaf_depthLE (hts _ hm) 0
  | succ d ih =>
      intro method o p h
      have hexp : ∀ o₀ : Oracle,
          genExpand numParams funcSet paramSet termSet d method o₀ = .ok p →
          depthLE p.1 (d + 1) = true := by
        intro o₀ h₀
        obtain ⟨k, args, hp1, _, hall⟩ :=
          genExpand_sound (fun a => depthLE a d = true)
            (fun o' p' h' => ih method o' p' h') h₀
        rw [hp1]
        simp only [depthLE]
        exact depthLEList_of_forall hall
      cases method with
      | FULL =>
          simp only [genTree] at h
          split at h
          · exact absurd h (by simp)
          · exact hexp o h
      | GROW =>
          simp only [genTree] at h
          split at h
          · exact absurd h (by simp)
          · by_cases hlt : (o.drawRat).1 <
                ((termSet.length + paramSet.length : Nat) : Rat) /
                  ((termSet.length + paramSet.length + funcSet.length : Nat) : Rat)
            · rw [if_pos hlt] at h
              rcases genLeaf_mem h with hm | hm
              · exact isLeaf_depthLE (hps _ hm) (d + 1)
              · exact isLeaf_depthLE (hts _ hm) (d + 1)
            · rw [if_neg hlt] at h
              exact hexp _ h

/-- C3: for every `num_params ≥ 0`, non-empty function and terminal sets
(a terminal set is a catalog of `TerminalNode`s), and `max_depth ≥ 0`,
every tree returned by `generate_random_tree` with method FULL has every
leaf at depth exactly `max_depth` below the root (a single leaf when
`max_depth = 0`), for every outcome of the random draws. -/
theorem generate_random_tree_FULL_leaves_exact (numParams : Nat) (funcSet : List OpKind)
    (termSet : List Node) (maxDepth : Nat) (o : Oracle) (t : Node) (o' : Oracle)
    (hf : funcSet ≠ []) (hne : termSet ≠ []) (hts : ∀ n ∈ termSet, n.isTerm = true)
    (h : generate_random_tree numParams funcSet termSet maxDepth .FULL o = .ok (t, o')) :
    leavesAtExactly t maxDepth = true := by
  have hps : ∀ n ∈ (List.range numParams).map (fun i => Node.param (i : Int)),
      n.isLeaf = true := by
    intro n hn
    obtain ⟨i, _, rfl⟩ := List.mem_map.mp hn
    rfl
  have hts' : ∀ n ∈ termSet, n.isLeaf = true := by
    intro n hn
    have := hts n hn
    cases n <;> simp_all [Node.isTerm, Node.isLeaf]
  exact genTree_FULL_leaves hps hts' maxDepth o (t, o') h

theorem generate_random_tree_FULL_leaves_exact_witness :
    leavesAtExactly (.op .add [.param 0]) 1 = true :=
  generate_random_tree_FULL_leaves_exact 1 [OpKind.add] [Node.term (.int 7)] 1 ⟨[0], [0, 0, 0]⟩
    (.op .add [.param 0]) ⟨[], []⟩ (by simp) (by simp) (by decide)
    (by norm_num [generate_random_tree, genTree, genExpand, genArgs, genLeaf, pyChoice,
      pyRandint, Oracle.drawRat, Oracle.drawNat, choose_param, OpKind.build, List.range_succ,
      List.range_zero, List.flatMap_cons, List.flatMap_nil, List.map_cons, List.map_nil,
      List.nil_append, List.cons_append])

/-- C5: for every `num_params ≥ 0`, `max_depth ≥ 0`, and either method,
every tree returned by `generate_random_tree` (with a terminal set of
`TerminalNode`s) has depth at most `max_depth`: no leaf sits deeper than
`max_depth` below the root, for every outcome of the random draws. -/
theorem generate_random_tree_depth_le (numParams : Nat) (funcSet : List OpKind)
    (termSet : List Node) (maxDepth : Nat) (method : Method) (o : Oracle) (t : Node)
    (o' : Oracle) (hts : ∀ n ∈ termSet, n.isTerm = true)
    (h : generate_random_tree numParams funcSet termSet maxDepth method o = .ok (t, o')) :
    depthLE t maxDepth = true := by
  have hps : ∀ n ∈ (List.range numParams).map (fun i => Node.param (i : Int)),
      n.isLeaf = true := by
    intro n hn
    obtain ⟨i, _, rfl⟩ := List.mem_map.mp hn
    rfl
  have hts' : ∀ n ∈ termSet, n.isLeaf = true := by
    intro n hn
    have := hts n hn
    cases n <;> simp_all [Node.isTerm, Node.isLeaf]
  exact genTree_depthLE hps hts' maxDepth method o (t, o') h

theorem generate_random_tree_depth_le_witness :
    depthLE (.op .add [.param 0]) 1 = true :=
  generate_random_tree_depth_le 1 [OpKind.add] [Node.term (.int 7)] 1 .FULL ⟨[0], [0, 0, 0]⟩
    (.op .add [.param 0]) ⟨[], []⟩ (by decide)
    (by norm_num [generate_random_tree, genTree, genExpand, genArgs, genLeaf, pyChoice,
      pyRandint, Oracle.drawRat, Oracle.drawNat, choose_param, OpKind.build, List.range_succ,
      List.range_zero, List.flatMap_cons, List.flatMap_nil, List.map_cons, List.map_nil,
      List.nil_append, List.cons_append])

/-- C8: for every `num_params ≥ 0`, `max_depth ≥ 0`, and either method,
`generate_random_tree` terminates for every outcome of the random draws,
either returning a tree or propagating an error (the embedding is a total
function, accepted by the termination checker because the depth argument
strictly decreases on every recursive path). -/
theorem generate_random_tree_total (numParams : Nat) (funcSet : List OpKind)
    (termSet : List Node) (maxDepth : Nat) (method : Method) (o : Oracle) :
    (∃ p, generate_random_tree numParams funcSet termSet maxDepth method o = .ok p) ∨
    (∃ e, generate_random_tree numParams funcSet termSet maxDepth method o = .error e) := by
  cases h : generate_random_tree numParams funcSet termSet maxDepth method o with
  | ok p => exact Or.inl ⟨p, rfl⟩
  | error e => exact Or.inr ⟨e, rfl⟩

/-- C9: with `num_params = 0`, a non-empty function set, a non-empty
terminal set, and `max_depth ≥ 0`, there are random outcomes on which
`generate_random_tree` raises: at `max_depth = 0` the leaf branch draws
`0 ≤ 0.8` and selects a parameter from the empty parameter catalog
(IndexError), and at `max_depth = 1` the operator branch picks a
variable-arity operator and samples an argument count from the empty
range `[1, 0]` (ValueError). -/
theorem generate_random_tree_error_outcomes :
    generate_random_tree 0 [OpKind.add] [Node.term (.int 1)] 0 .FULL ⟨[0], []⟩ =
      .error .indexError ∧
    generate_random_tree 0 [OpKind.add] [Node.term (.int 1)] 1 .FULL ⟨[], [0]⟩ =
      .error .valueError := by
  constructor <;>
    norm_num [generate_random_tree, genTree, genExpand, genLeaf, pyChoice, pyRandint,
      Oracle.drawRat, Oracle.drawNat, choose_param]

theorem pyGet_natCast {α : Type} (l : List α) (i : Nat) : pyGet l (i : Int) = l.get? i := by
  simp only [pyGet]
  rw [if_neg (by omega : ¬((i : Int) < 0))]
  by_cases h : (i : Int) < (l.length : Int)
  · rw [if_pos ⟨Int.natCast_nonneg i, h⟩, Int.toNat_natCast]
  · rw [if_neg (by tauto)]
    rw [eq_comm, List.get?_eq_none]
    omega

/-- C7: for every context sequence `v` and natural index `i < len(v)`,
`ParamNode(i)` evaluates to `v[i]`; for `i ≥ len(v)` it fails with
IndexOutOfRange. -/
theorem param_eval_in_or_out (v : List PyNum) (i : Nat) :
    (∀ h : i < v.length, eval v (.param (i : Int)) = .ok (v.get ⟨i, h⟩)) ∧
    (v.length ≤ i → eval v (.param (i : Int)) = .error .indexOutOfRange) := by
  constructor
  · intro h
    simp only [eval, pyGet_natCast, List.get?_eq_get h]
  · intro h
    simp only [eval, pyGet_natCast, List.get?_eq_none.mpr h]

theorem param_eval_in_or_out_witness :
    eval [PyNum.int 5] (.param ((0 : Nat) : Int)) = .ok (.int 5) ∧
    eval [PyNum.int 5] (.param ((2 : Nat) : Int)) = .error .indexOutOfRange := by
  constructor
  · have h := (param_eval_in_or_out [PyNum.int 5] 0).1 (by decide)
    simpa using h
  · exact (param_eval_in_or_out [PyNum.int 5] 2).2 (by decide)

/-- C10: for every context sequence `v` and negative index `-len(v) ≤ i < 0`,
`ParamNode(i)` evaluates to `v[len(v) + i]` (the element counted from the
end) instead of failing with IndexOutOfRange. -/
theorem param_eval_negative (v : List PyNum) (i : Int) (h1 : -(v.length : Int) ≤ i)
    (h2 : i < 0) :
    eval v (.param i) = .ok (v.get ⟨((v.length : Int) + i).toNat, by omega⟩) := by
  simp only [eval, pyGet]
  rw [if_pos h2, if_pos ⟨by omega, by omega⟩]
  rw [List.get?_eq_get (by omega : ((v.length : Int) + i).toNat < v.length)]

theorem param_eval_negative_witness :
    eval [PyNum.int 7, PyNum.int 9] (.param (-1)) = .ok (.int 9) := by
  have h := param_eval_negative [PyNum.int 7, PyNum.int 9] (-1) (by norm_num) (by norm_num)
  simpa using h

/-- C2 counterexample: a Division node with no children, evaluated against a
non-empty context, raises IndexError (`children_values[0]`) instead of
returning 1; the claim "empty context OR no children returns 1" fails on its
no-children side. -/
theorem division_no_children_raises :
    eval [PyNum.int 5] (.op .div []) = .error .indexError ∧
    eval [PyNum.int 5] (.op .div []) ≠ .ok (.int 1) := by
  refine ⟨rfl, ?_⟩
  decide

/-- C2 amended: a Division node evaluated against an empty context returns
the integer 1 whenever the evaluation of its children succeeds; the
no-children case with a non-empty context raises instead. -/
theorem division_empty_context_returns_one (cs : List Node) (vs : List PyNum)
    (h : evalList [] cs = .ok vs) :
    eval [] (.op .div cs) = .ok (.int 1) := by
  simp [eval, h, Except.instMonad, Except.bind, Except.pure, List.isEmpty]

theorem division_empty_context_returns_one_witness :
    eval [] (.op .div [.term (.int 5)]) = .ok (.int 1) :=
  division_empty_context_returns_one [.term (.int 5)] [.int 5] rfl

/-- C4 counterexample: with an empty context a single-child Division returns
the integer 1, not 1 divided by the child's value; and with a zero-valued
child it raises ZeroDivisionError rather than returning a quotient. -/
theorem division_formula_cex :
    eval [] (.op .div [.term (.int 5)]) = .ok (.int 1) ∧
    (PyNum.int 1).toRat ≠ 1 / (PyNum.int 5).toRat ∧
    eval [.int 1] (.op .div [.term (.int 0)]) = .error .zeroDivisionError := by
  refine ⟨rfl, ?_, ?_⟩
  · norm_num [PyNum.toRat]
  · norm_num [eval, evalList, PyNum.toRat, Except.instMonad, Except.bind, Except.pure, List.isEmpty]

/-- C4 amended: for every Division node evaluated against a NON-EMPTY
context on which child evaluation succeeds: with exactly one child whose
value is nonzero, it returns the float `1 / child`; with two or more
children whose remaining product is nonzero, it returns the float
`first / (product of the rest)` (a zero denominator raises
ZeroDivisionError instead). -/
theorem division_formula_nonempty (ctx : List PyNum) (cs : List Node) (v : PyNum)
    (vs : List PyNum) (hctx : ctx ≠ []) (h : evalList ctx cs = .ok (v :: vs)) :
    (vs = [] → v.toRat ≠ 0 → eval ctx (.op .div cs) = .ok (.float (1 / v.toRat))) ∧
    (vs ≠ [] → (pyProd vs).toRat ≠ 0 →
      eval ctx (.op .div cs) = .ok (.float (v.toRat / (pyProd vs).toRat))) := by
  have hne : ctx.isEmpty = false := by
    cases ctx
    · exact absurd rfl hctx
    · rfl
  constructor
  · rintro rfl hv
    simp [eval, h, Except.instMonad, Except.bind, Except.pure, hne, hv]
  · intro hvs hden
    cases vs with
    | nil => exact absurd rfl hvs
    | cons w ws => simp [eval, h, Except.instMonad, Except.bind, Except.pure, hne, hden]

theorem division_formula_nonempty_witness :
    eval [PyNum.int 9] (.op .div [.term (.int 5)]) = .ok (.float (1 / (PyNum.int 5).toRat)) ∧
    eval [PyNum.int 9] (.op .div [.term (.int 4), .term (.int 2)]) =
      .ok (.float ((PyNum.int 4).toRat / (pyProd [PyNum.int 2]).toRat)) := by
  constructor
  · exact (division_formula_nonempty [PyNum.int 9] [.term (.int 5)] (.int 5) []
      (by simp) rfl).1 rfl (by norm_num [PyNum.toRat])
  · exact (division_formula_nonempty [PyNum.int 9] [.term (.int 4), .term (.int 2)] (.int 4)
      [.int 2] (by simp) rfl).2 (by simp) (by norm_num [pyProd, pyMul, PyNum.toRat])

/-- C6 counterexample: a Division node evaluated against an empty context
succeeds with the integer 1, which does not carry the float tag. -/
theorem division_result_not_float_cex :
    eval [] (.op .div [.term (.int 5)]) = .ok (.int 1) ∧ (PyNum.int 1).isFloat = false :=
  ⟨rfl, rfl⟩

/-- C6 amended: for every Division node and every NON-EMPTY context on which
its evaluation succeeds, the returned value is a float. -/
theorem division_nonempty_context_float (ctx : List PyNum) (cs : List Node) (v : PyNum)
    (hctx : ctx ≠ []) (h : eval ctx (.op .div cs) = .ok v) : v.isFloat = true := by
  have hne : ctx.isEmpty = false := by
    cases ctx
    · exact absurd rfl hctx
    · rfl
  simp only [eval] at h
  cases he : evalList ctx cs with
  | error e =>
      rw [he] at h
      simp [Except.instMonad, Except.bind, Except.pure] at h
  | ok vs =>
      rw [he] at h
      simp only [Except.instMonad, Except.bind, Except.pure, hne] at h
      cases vs with
      | nil => simp at h
      | cons w ws =>
          cases ws with
          | nil =>
              by_cases hw : w.toRat = 0
              · simp [hw] at h
              · simp only [hw, if_false] at h
                cases h
                rfl
          | cons w2 ws2 =>
              by_cases hw : (pyProd (w2 :: ws2)).toRat = 0
              · simp [hw] at h
              · simp only [hw, if_false] at h
                cases h
                rfl

theorem division_nonempty_context_float_witness :
    (PyNum.float (1 / (PyNum.int 5).toRat)).isFloat = true :=
  division_nonempty_context_float [PyNum.int 9] [.term (.int 5)]
    (.float (1 / (PyNum.int 5).toRat)) (by simp) rfl

/-- C1 counterexample: the constant-only tree `Division([Terminal(5)])`
evaluates to the integer 1 against the empty context but to the float 0.2
against a non-empty context, so constant-only trees are not
context-independent. -/
theorem constOnly_context_dependent_cex :
    constOnly (.op .div [.term (.int 5)]) = true ∧
    eval [] (.op .div [.term (.int 5)]) = .ok (.int 1) ∧
    eval [PyNum.int 1] (.op .div [.term (.int 5)]) = .ok (.float (1 / 5)) ∧
    (Except.ok (PyNum.int 1) : Except EvalErr PyNum) ≠ .ok (.float (1 / 5)) := by
  refine ⟨rfl, rfl, rfl, ?_⟩
  simp

mutual

theorem eval_constOnly_ctx (c1 c2 : List PyNum) (hc : c1.isEmpty = c2.isEmpty) :
    ∀ (t : Node), constOnly t = true → eval c1 t = eval c2 t
  | .term v, _ => rfl
  | .param i, h => by simp [constOnly] at h
  | .op k cs, h => by
      have hcs : evalList c1 cs = evalList c2 cs :=
        evalList_constOnly_ctx c1 c2 hc cs (by simpa [constOnly] using h)
      cases k <;> simp [eval, hcs, hc]

theorem evalList_constOnly_ctx (c1 c2 : List PyNum) (hc : c1.isEmpty = c2.isEmpty) :
    ∀ (cs : List Node), constOnlyList cs = true → evalList c1 cs = evalList c2 cs
  | [], _ => rfl
  | c :: cs, h => by
      have hsplit : constOnly c = true ∧ constOnlyList cs = true := by
        simpa [constOnlyList, Bool.and_eq_true] using h
      simp [evalList, eval_constOnly_ctx c1 c2 hc c hsplit.1,
        evalList_constOnly_ctx c1 c2 hc cs hsplit.2]

end

/-- C1 amended: a tree built only from Terminal, Addition, Multiplication,
Division, and Subtraction nodes (no Parameter node) evaluates to the same
result against any two contexts that are both empty or both non-empty
(against the empty context a Division subtree falls back to 1, so full
context-independence fails). -/
theorem constOnly_eval_context_independent (t : Node) (h : constOnly t = true)
    (c1 c2 : List PyNum) (hc : c1.isEmpty = c2.isEmpty) : eval c1 t = eval c2 t :=
  eval_constOnly_ctx c1 c2 hc t h

theorem constOnly_eval_context_independent_witness :
    eval [PyNum.int 1] (.op .div [.term (.int 5)]) =
      eval [PyNum.int 2, PyNum.int 3] (.op .div [.term (.int 5)]) :=
  constOnly_eval_context_independent (.op .div [.term (.int 5)]) rfl
    [.int 1] [.int 2, .int 3] rfl
